import Mathlib

/-!
Verification of the llmcli model manager: a shallow embedding of its
model-acquisition, metadata-store, process-supervisor and streaming-chat
code, with theorems about the properties stated in its specification.
-/

namespace LlmCli

/-- ASCII character class of the Go regex class `[a-zA-Z0-9_-]`, the
first (namespace) segment of validateModelID's pattern. -/
def isIDChar (c : Char) : Bool :=
  c.isAlpha || c.isDigit || c = '_' || c = '-'

/-- ASCII character class of the Go regex class `[a-zA-Z0-9_.-]`, the
second (name) segment of validateModelID's pattern: it additionally
allows the dot. -/
def isNameChar (c : Char) : Bool :=
  isIDChar c || c = '.'

/-- Matches the pattern remainder `[a-zA-Z0-9_.-]+$` after the slash:
a nonempty run of name characters. -/
def matchName (cs : List Char) : Bool :=
  !cs.isEmpty && cs.all isNameChar

/-- Matches `[a-zA-Z0-9_-]*/[a-zA-Z0-9_.-]+$`, the pattern remainder
after at least one first-segment character has been consumed.  Because
the first character class cannot contain a slash, consuming first-segment
characters up to the first slash is exactly what the anchored regex does. -/
def matchRest : List Char → Bool
  | [] => false
  | c :: cs => if c = '/' then matchName cs else isIDChar c && matchRest cs

/-- Shallow embedding of validateModelID: whether the model ID matches
the anchored Go regex `^[a-zA-Z0-9_-]+/[a-zA-Z0-9_.-]+$`. -/
def validateModelID (s : String) : Bool :=
  match s.data with
  | [] => false
  | c :: cs => isIDChar c && matchRest cs

/-- The pattern in the words of claim C2: `<namespace>/<name>` where EACH
of the two segments consists only of alphanumerics, hyphens, underscores
and dots (so the dot is allowed in the namespace segment as well). -/
def matchRestClaim : List Char → Bool
  | [] => false
  | c :: cs => if c = '/' then matchName cs else isNameChar c && matchRestClaim cs

/-- The validation pattern as claim C2 states it (dot allowed in both
segments), to be compared with validateModelID. -/
def claimValidModelID (s : String) : Bool :=
  match s.data with
  | [] => false
  | c :: cs => isNameChar c && matchRestClaim cs

/-- The effects Pull performs after its validation gate, in source order. -/
inductive PullStep where
  | checkExisting
  | fetchManifest
  | mkdir
  | download
  | statFile
  | dbInsert
deriving DecidableEq, Repr

/-- The validation gate at the top of Pull: an invalid model ID is
rejected with the formatting error before any network, filesystem or
store effect happens; a valid one proceeds to the rest of the body,
abstracted here as `rest` (its effect list and outcome). -/
def pull (rest : List PullStep × Except String Unit) (modelID : String) :
    List PullStep × Except String Unit :=
  if validateModelID modelID then rest
  else ([], Except.error ("invalid model ID format: " ++ modelID))

/-- ASCII character class `[a-z0-9-]` of the slug-cleaning regex in
generateSlug. -/
def isSlugChar (c : Char) : Bool :=
  c.isLower || c.isDigit || c = '-'

/-- strings.Trim with a one-character cutset: removes every leading and
every trailing occurrence of `c`. -/
def trimChar (c : Char) (l : List Char) : List Char :=
  ((l.dropWhile (· = c)).reverse.dropWhile (· = c)).reverse

/-- Shallow embedding of generateSlug: lower-case the model ID, replace
every slash with a hyphen, replace every character outside `[a-z0-9-]`
with a hyphen (regexp ReplaceAllString with replacement "-"), and trim
leading and trailing hyphens.  Lower-casing is modelled per character on
ASCII (Char.toLower), which agrees with the Go code on all ASCII input;
a non-ASCII character falls outside `[a-z0-9-]` and is replaced by a
hyphen either way. -/
def generateSlug (modelID : String) : String :=
  let s1 := modelID.data.map Char.toLower
  let s2 := s1.map (fun c => if c = '/' then '-' else c)
  let s3 := s2.map (fun c => if isSlugChar c then c else '-')
  String.mk (trimChar '-' s3)

/-- The slug derivation in the words of claim C3: lower-case, replace
slashes with hyphens, STRIP (delete) every character outside `[a-z0-9-]`,
and trim leading and trailing hyphens.  To be compared with generateSlug. -/
def generateSlugClaim (modelID : String) : String :=
  let s1 := modelID.data.map Char.toLower
  let s2 := s1.map (fun c => if c = '/' then '-' else c)
  let s3 := s2.filter isSlugChar
  String.mk (trimChar '-' s3)

/-- Whether `pre` is a leading run of `l` (strings.HasPrefix at the
character level). -/
def hasPrefixChars : List Char → List Char → Bool
  | _, [] => true
  | [], _ :: _ => false
  | c :: cs, p :: ps => c = p && hasPrefixChars cs ps

/-- strings.HasPrefix. -/
def strHasPrefix (s pre : String) : Bool :=
  hasPrefixChars s.data pre.data

/-- strings.HasSuffix. -/
def strHasSuffix (s suf : String) : Bool :=
  hasPrefixChars s.data.reverse suf.data.reverse

/-- strings.ToLower, modelled per character on ASCII. -/
def strToLower (s : String) : String :=
  String.mk (s.data.map Char.toLower)

/-- strings.TrimPrefix's removal step: drop the first n characters. -/
def strDrop (s : String) (n : Nat) : String :=
  String.mk (s.data.drop n)

/-- strings.Split with a one-character separator, at the character
level: splitting an empty string yields one empty part, as in Go. -/
def splitOnChar (sep : Char) : List Char → List (List Char)
  | [] => [[]]
  | c :: cs =>
    let r := splitOnChar sep cs
    if c = sep then [] :: r
    else
      match r with
      | [] => [[c]]
      | h :: t => (c :: h) :: t

/-- strings.Join with a one-character separator (filepath.Join over
already-clean segments). -/
def joinChars (sep : Char) : List (List Char) → List Char
  | [] => []
  | [h] => h
  | h :: t => h ++ sep :: joinChars sep t

/-- A row of the models table: slug (UNIQUE), source model ID, file name,
file path, human-readable file size, creation time and optional last-use
time (timestamps modelled as naturals). -/
structure DBModel where
  slug : String
  modelID : String
  fileName : String
  filePath : String
  fileSize : String
  createdAt : Nat
  lastUsed : Option Nat
deriving DecidableEq, Repr

/-- GetModelBySlug: SELECT ... WHERE slug = ?; the row with the given
slug, if any. -/
def getModelBySlug (ms : List DBModel) (slug : String) : Option DBModel :=
  ms.find? (fun r => r.slug == slug)

/-- AddModel: INSERT OR REPLACE keyed on the UNIQUE slug column — any
existing row with the same slug is replaced; created_at takes the current
time by column default and last_used starts NULL. -/
def addModel (ms : List DBModel) (slug modelID fileName filePath fileSize : String)
    (now : Nat) : List DBModel :=
  ⟨slug, modelID, fileName, filePath, fileSize, now, none⟩ ::
    ms.filter (fun r => r.slug != slug)

/-- RemoveModel: DELETE WHERE slug = ?, with a not-found error when no
row is affected (error text without the Go quoting). -/
def removeModel (ms : List DBModel) (slug : String) : List DBModel × Option String :=
  if ms.any (fun r => r.slug == slug) then
    (ms.filter (fun r => r.slug != slug), none)
  else (ms, some ("no model with slug " ++ slug ++ " found"))

/-- UpdateModelLastUsed: UPDATE ... SET last_used = CURRENT_TIMESTAMP
WHERE slug = ?, with a not-found error when no row is affected. -/
def updateModelLastUsed (ms : List DBModel) (slug : String) (now : Nat) :
    List DBModel × Option String :=
  if ms.any (fun r => r.slug == slug) then
    (ms.map (fun r => if r.slug == slug then { r with lastUsed := some now } else r), none)
  else (ms, some ("no model with slug " ++ slug ++ " found"))

/-- UpdateModelSlug: UPDATE models SET slug = new WHERE slug = old, with
a not-found error when no row is affected. -/
def updateModelSlug (ms : List DBModel) (oldSlug newSlug : String) :
    List DBModel × Option String :=
  if ms.any (fun r => r.slug == oldSlug) then
    (ms.map (fun r => if r.slug == oldSlug then { r with slug := newSlug } else r), none)
  else (ms, some ("no model with slug " ++ oldSlug ++ " found"))

/-- model.Alias: require the old slug to name a record, require the new
slug to be absent, then rename via UpdateModelSlug.  On error the store
is returned unchanged. -/
def aliasModel (ms : List DBModel) (oldSlug newSlug : String) :
    List DBModel × Option String :=
  if (getModelBySlug ms oldSlug).isSome then
    if (getModelBySlug ms newSlug).isSome then
      (ms, some ("model with slug " ++ newSlug ++ " already exists"))
    else updateModelSlug ms oldSlug newSlug
  else (ms, some ("model with slug " ++ oldSlug ++ " not found"))

/-- No two rows of the store share a slug. -/
def distinctSlugs (ms : List DBModel) : Prop :=
  ms.Pairwise (fun a b => a.slug ≠ b.slug)

/-- The store states reachable from the empty store through the store
operations: upsert (AddModel), rename (Alias), remove (RemoveModel) and
touch (UpdateModelLastUsed). -/
inductive ReachableStore : List DBModel → Prop where
  | init : ReachableStore []
  | add (ms : List DBModel) (slug modelID fileName filePath fileSize : String) (now : Nat) :
      ReachableStore ms → ReachableStore (addModel ms slug modelID fileName filePath fileSize now)
  | rename (ms : List DBModel) (oldSlug newSlug : String) :
      ReachableStore ms → ReachableStore (aliasModel ms oldSlug newSlug).1
  | remove (ms : List DBModel) (slug : String) :
      ReachableStore ms → ReachableStore (removeModel ms slug).1
  | touch (ms : List DBModel) (slug : String) (now : Nat) :
      ReachableStore ms → ReachableStore (updateModelLastUsed ms slug now).1

/-- The world visible to model.Remove: the files present on disk and the
rows of the models table. -/
structure SysState where
  files : List String
  models : List DBModel
deriving DecidableEq, Repr

/-- model.Remove: look up the record by slug, delete the backing file
from disk, then delete the database row; on any failing step the
remaining steps do not run.  `fsOk path` injects whether os.Remove of
that path succeeds, `dbOk` whether the SQL DELETE executes. -/
def removeCmd (fsOk : String → Bool) (dbOk : Bool) (st : SysState) (slug : String) :
    SysState × Option String :=
  match getModelBySlug st.models slug with
  | none => (st, some ("model with slug " ++ slug ++ " not found"))
  | some m =>
    if fsOk m.filePath then
      if dbOk then
        (⟨st.files.filter (fun p => p != m.filePath), (removeModel st.models slug).1⟩,
          (removeModel st.models slug).2)
      else
        (⟨st.files.filter (fun p => p != m.filePath), st.models⟩,
          some "deleting model: database error")
    else (st, some ("removing file: " ++ m.filePath))

/-- A record whose backing file is missing from disk (a dangling record). -/
def hasOrphanRecord (st : SysState) : Bool :=
  st.models.any (fun r => !st.files.contains r.filePath)

/-- A file on disk that no record references. -/
def isOrphanFile (st : SysState) (f : String) : Prop :=
  f ∈ st.files ∧ ∀ r ∈ st.models, r.filePath ≠ f

/-- One callback of the filepath.Walk over the models directory:
the path relative to the models root (slash-separated), whether it is a
directory, its size in bytes, whether the walk reports an error visiting
it (the callback's non-nil err argument), and whether the AddModel insert
for it would fail. -/
structure WalkEntry where
  relPath : String
  isDir : Bool
  size : Nat
  visitErr : Bool
  insertFails : Bool
deriving DecidableEq, Repr

/-- model.ImportExisting over the sequence of Walk callbacks: a visit
error is returned from the callback and aborts the walk (second component
true); a regular file whose lower-cased path ends in ".gguf" and lies at
least one directory below the root is upserted, the model ID being the
slash-join of all path segments but the last, the file name the last
segment, the size in whole mebibytes; a failed insert is logged and
skipped.  Returns the resulting store and whether the walk aborted. -/
def importExisting (root : String) (now : Nat) :
    List WalkEntry → List DBModel → List DBModel × Bool
  | [], st => (st, false)
  | e :: rest, st =>
    if e.visitErr then (st, true)
    else if !e.isDir && strHasSuffix (strToLower e.relPath) ".gguf" then
      let parts := splitOnChar '/' e.relPath.data
      if parts.length < 2 then importExisting root now rest st
      else
        let modelID := String.mk (joinChars '/' parts.dropLast)
        let fileName := String.mk (parts.getLastD [])
        let fileSize := toString (e.size / (1024 * 1024)) ++ "M"
        let slug := generateSlug modelID
        if e.insertFails then importExisting root now rest st
        else importExisting root now rest
          (addModel st slug modelID fileName (root ++ "/" ++ e.relPath) fileSize now)
    else importExisting root now rest st

/-- Decodes a JSON string literal after its opening quote, supporting the
simple escapes; returns the decoded text and the unconsumed rest, or none
on malformed input. -/
def parseJsonStringBody : List Char → List Char → Option (String × List Char)
  | [], _ => none
  | '"' :: rest, acc => some (String.mk acc.reverse, rest)
  | '\\' :: '"' :: rest, acc => parseJsonStringBody rest ('"' :: acc)
  | '\\' :: '\\' :: rest, acc => parseJsonStringBody rest ('\\' :: acc)
  | '\\' :: '/' :: rest, acc => parseJsonStringBody rest ('/' :: acc)
  | '\\' :: 'n' :: rest, acc => parseJsonStringBody rest ('\n' :: acc)
  | '\\' :: 't' :: rest, acc => parseJsonStringBody rest ('\t' :: acc)
  | '\\' :: 'r' :: rest, acc => parseJsonStringBody rest ('\r' :: acc)
  | '\\' :: _, _ => none
  | c :: rest, acc => parseJsonStringBody rest (c :: acc)

/-- Drops JSON insignificant whitespace. -/
def skipWs (l : List Char) : List Char :=
  l.dropWhile (fun c => c = ' ' || c = '\t' || c = '\n' || c = '\r')

/-- Parses the members of a flat JSON object of string fields, after the
opening brace: a comma-separated sequence of "key":"value" pairs closed
by a brace at the end of the input.  Fuelled recursion; none on malformed
input. -/
def parseJsonMembers : Nat → List Char → List (String × String) →
    Option (List (String × String))
  | 0, _, _ => none
  | fuel + 1, l, acc =>
    match skipWs l with
    | '"' :: rest =>
      match parseJsonStringBody rest [] with
      | none => none
      | some (key, rest1) =>
        match skipWs rest1 with
        | ':' :: rest2 =>
          match skipWs rest2 with
          | '"' :: rest3 =>
            match parseJsonStringBody rest3 [] with
            | none => none
            | some (value, rest4) =>
              match skipWs rest4 with
              | ',' :: rest5 => parseJsonMembers fuel rest5 ((key, value) :: acc)
              | '}' :: rest6 =>
                if (skipWs rest6).isEmpty then some ((key, value) :: acc).reverse else none
              | _ => none
          | _ => none
        | _ => none
    | _ => none

/-- json.Unmarshal of a streamed fragment, restricted to the shape the
chat loop consumes: a flat object whose fields are strings.  Malformed
input yields none. -/
def parseFlatJson (s : String) : Option (List (String × String)) :=
  match skipWs s.data with
  | '{' :: rest =>
    match skipWs rest with
    | '}' :: rest1 => if (skipWs rest1).isEmpty then some [] else none
    | _ => parseJsonMembers (s.data.length + 1) rest []
  | _ => none

/-- The content field of a parsed stream fragment, when present. -/
def streamContent (data : String) : Option String :=
  match parseFlatJson data with
  | none => none
  | some kvs => (kvs.find? (fun kv => kv.1 == "content")).map (fun kv => kv.2)

/-- One line of the streamed-response loop in Chat: a line carrying the
"data: " marker contributes its fragment's content field to the
accumulated response; every other line — no marker, malformed JSON, or a
fragment without a string content field — is skipped and the loop
continues. -/
def processStreamLine (acc : String) (line : String) : String :=
  if strHasPrefix line "data: " then
    match streamContent (strDrop line 6) with
    | some c => acc ++ c
    | none => acc
  else acc

/-- The accumulated visible assistant text of one streamed response. -/
def processStream (lines : List String) : String :=
  lines.foldl processStreamLine ""

/-- One turn of Chat: the user input is appended to the in-memory
transcript, the streamed response lines are accumulated, and the
accumulated text is appended as the assistant turn.  Returns the new
transcript and the accumulated text. -/
def chatTurn (history : List String) (userInput : String) (lines : List String) :
    List String × String :=
  let h1 := history ++ [userInput]
  let full := processStream lines
  (h1 ++ [full], full)

/-- The polling loop of WaitForServer from iteration index `i` with `r`
iterations remaining: at the top of each iteration a progress dot is
printed when the index is a positive multiple of 10, then the health
endpoint is checked; on success the loop returns the index of the
succeeding check.  Returns the index of the first healthy check (none on
timeout) and the list of indices at which a dot was printed. -/
def waitFrom (healthy : Nat → Bool) : Nat → Nat → Option Nat × List Nat
  | 0, _ => (none, [])
  | r + 1, i =>
    let dots := if 0 < i ∧ i % 10 = 0 then [i] else []
    if healthy i then (some i, dots)
    else
      let next := waitFrom healthy r (i + 1)
      (next.1, dots ++ next.2)

/-- WaitForServer: poll the health endpoint once per one-second tick, up
to maxWaitSeconds checks.  The health endpoint is abstracted as a
function of the check index. -/
def waitForServer (healthy : Nat → Bool) (maxWaitSeconds : Nat) : Option Nat × List Nat :=
  waitFrom healthy maxWaitSeconds 0

/-- The observable actions of KillAll, in order: a SIGTERM attempt per
discovered PID (with its outcome), the fixed grace sleep, the re-scan,
and a SIGKILL attempt per PID the re-scan still finds. -/
inductive KillEvent where
  | sigterm (pid : Nat) (ok : Bool)
  | wait (seconds : Nat)
  | rescan
  | sigkill (pid : Nat) (ok : Bool)
deriving DecidableEq, Repr

/-- server.KillAll: `scan1` is the initial pgrep result and `scan2` the
re-scan after the 2-second grace period; `termOk`/`killOk` inject whether
signalling a given PID succeeds.  With no process found the function
warns and returns; otherwise every discovered PID is sent SIGTERM
(failures logged, loop continues), the loop sleeps 2 seconds, re-scans,
and force-kills exactly the re-scanned PIDs.  The overall result is nil
regardless of per-PID failures. -/
def killAll (scan1 scan2 : List Nat) (termOk killOk : Nat → Bool) :
    List KillEvent × Option String :=
  match scan1 with
  | [] => ([], none)
  | _ :: _ =>
    (scan1.map (fun p => KillEvent.sigterm p (termOk p)) ++
      KillEvent.wait 2 :: KillEvent.rescan ::
        (if scan2.isEmpty then []
         else scan2.map (fun p => KillEvent.sigkill p (killOk p))), none)

/-- Event `e1` occurs strictly before event `e2` in the trace. -/
def Precedes (tr : List KillEvent) (e1 e2 : KillEvent) : Prop :=
  ∃ l1 l2 l3, tr = l1 ++ e1 :: (l2 ++ e2 :: l3)

/-! Helper lemmas about dropWhile, trimChar and slug uniqueness. -/

theorem head?_dropWhile_ne (p : Char → Bool) (l : List Char) {a : Char}
    (h : (l.dropWhile p).head? = some a) : p a = false := by
  induction l with
  | nil => simp [List.dropWhile] at h
  | cons c cs ih =>
    rw [List.dropWhile_cons] at h
    split at h
    · exact ih h
    · simp only [List.head?_cons, Option.some.injEq] at h
      subst h
      rename_i hc
      simpa using hc

theorem getLast?_dropWhile (p : Char → Bool) (l : List Char)
    (h : l.dropWhile p ≠ []) : (l.dropWhile p).getLast? = l.getLast? := by
  induction l with
  | nil => simp at h
  | cons c cs ih =>
    rw [List.dropWhile_cons]
    rw [List.dropWhile_cons] at h
    split
    case isTrue hc =>
      rw [if_pos hc] at h
      cases hcs : cs with
      | nil => rw [hcs] at h; simp at h
      | cons d ds =>
        rw [List.getLast?_cons_cons]
        rw [hcs] at h ih
        exact ih h
    case isFalse hc => rfl

theorem mem_trimChar {c a : Char} {l : List Char} (h : a ∈ trimChar c l) : a ∈ l := by
  unfold trimChar at h
  rw [List.mem_reverse] at h
  have h1 := List.Sublist.mem h (List.dropWhile_sublist _)
  rw [List.mem_reverse] at h1
  exact List.Sublist.mem h1 (List.dropWhile_sublist _)

theorem all_trimChar (c : Char) (p : Char → Bool) (l : List Char) (h : l.all p = true) :
    (trimChar c l).all p = true := by
  rw [List.all_eq_true] at h ⊢
  exact fun a ha => h a (mem_trimChar ha)

theorem head?_trimChar_ne {c a : Char} {l : List Char}
    (h : (trimChar c l).head? = some a) : a ≠ c := by
  unfold trimChar at h
  rw [List.head?_reverse] at h
  have hne : (l.dropWhile (· = c)).reverse.dropWhile (· = c) ≠ [] := by
    intro he
    rw [he] at h
    cases h
  rw [getLast?_dropWhile _ _ hne, List.getLast?_reverse] at h
  have := head?_dropWhile_ne _ _ h
  simpa using this

theorem getLast?_trimChar_ne {c a : Char} {l : List Char}
    (h : (trimChar c l).getLast? = some a) : a ≠ c := by
  unfold trimChar at h
  rw [List.getLast?_reverse] at h
  have := head?_dropWhile_ne _ _ h
  simpa using this

theorem distinctSlugs_eq_of_slug_eq {ms : List DBModel} (hd : distinctSlugs ms)
    {a b : DBModel} (ha : a ∈ ms) (hb : b ∈ ms) (h : a.slug = b.slug) : a = b := by
  induction ms with
  | nil => cases ha
  | cons m t ih =>
    rw [distinctSlugs, List.pairwise_cons] at hd
    cases ha with
    | head =>
      cases hb with
      | head => rfl
      | tail _ hb => exact absurd h (hd.1 b hb)
    | tail _ ha =>
      cases hb with
      | head => exact absurd h.symm (hd.1 a ha)
      | tail _ hb => exact ih hd.2 ha hb

theorem matchName_iff (cs : List Char) :
    matchName cs = true ↔ cs ≠ [] ∧ cs.all isNameChar = true := by
  cases cs with
  | nil => simp [matchName]
  | cons c t => simp [matchName]

theorem matchRest_iff (cs : List Char) :
    matchRest cs = true ↔
      ∃ xs ys, cs = xs ++ '/' :: ys ∧ xs.all isIDChar = true ∧
        ys ≠ [] ∧ ys.all isNameChar = true := by
  induction cs with
  | nil =>
    constructor
    · intro h
      exact absurd h (by decide)
    · rintro ⟨xs, ys, heq, -, -, -⟩
      exact absurd heq.symm (List.append_ne_nil_of_right_ne_nil xs (List.cons_ne_nil _ _))
  | cons c cs ih =>
    by_cases hc : c = '/'
    · subst hc
      rw [show matchRest ('/' :: cs) = matchName cs from rfl, matchName_iff]
      constructor
      · rintro ⟨h1, h2⟩
        exact ⟨[], cs, rfl, rfl, h1, h2⟩
      · rintro ⟨xs, ys, heq, hxs, hys, hall⟩
        cases xs with
        | nil =>
          simp only [List.nil_append, List.cons.injEq] at heq
          rw [heq.2]
          exact ⟨hys, hall⟩
        | cons x xt =>
          simp only [List.cons_append, List.cons.injEq] at heq
          rw [List.all_cons, Bool.and_eq_true] at hxs
          rw [← heq.1] at hxs
          exact absurd hxs.1 (by decide)
    · simp only [matchRest, if_neg hc]
      constructor
      · intro h
        rw [Bool.and_eq_true] at h
        obtain ⟨xs, ys, heq, hxs, hys, hall⟩ := ih.mp h.2
        refine ⟨c :: xs, ys, by rw [heq]; rfl, ?_, hys, hall⟩
        rw [List.all_cons, Bool.and_eq_true]
        exact ⟨h.1, hxs⟩
      · rintro ⟨xs, ys, heq, hxs, hys, hall⟩
        cases xs with
        | nil =>
          simp only [List.nil_append, List.cons.injEq] at heq
          exact absurd heq.1 hc
        | cons x xt =>
          simp only [List.cons_append, List.cons.injEq] at heq
          rw [List.all_cons, Bool.and_eq_true] at hxs
          rw [Bool.and_eq_true]
          rw [← heq.1] at hxs
          exact ⟨hxs.1, ih.mpr ⟨xt, ys, heq.2, hxs.2, hys, hall⟩⟩

/-- Claim C2, counterexample: the string "a.b/c" matches the claim's pattern —
both segments drawn from alphanumerics, hyphens, underscores and dots —
yet validateModelID rejects it: the code's namespace segment does not
accept the dot. -/
theorem validateModelID_dot_counterexample :
    claimValidModelID "a.b/c" = true ∧ validateModelID "a.b/c" = false := by
  decide

/-- Claim C2, amended: pull proceeds past validation iff the input is
`<namespace>/<name>` where the namespace segment consists only of
alphanumerics, hyphens and underscores (NO dot) and the name segment
additionally allows dots; any other string is rejected with the
format-validation error before any network, filesystem or store effect
runs. -/
theorem pull_validation_gate (s : String) (rest : List PullStep × Except String Unit) :
    (validateModelID s = true ↔
      ∃ xs ys, s.data = xs ++ '/' :: ys ∧ xs ≠ [] ∧ xs.all isIDChar = true ∧
        ys ≠ [] ∧ ys.all isNameChar = true) ∧
    (validateModelID s = true → pull rest s = rest) ∧
    (validateModelID s = false →
      pull rest s = ([], Except.error ("invalid model ID format: " ++ s))) := by
  refine ⟨?_, ?_, ?_⟩
  · unfold validateModelID
    cases hd : s.data with
    | nil =>
      constructor
      · intro h; cases h
      · rintro ⟨xs, ys, heq, -, -, -⟩
        exact absurd heq.symm (List.append_ne_nil_of_right_ne_nil xs (List.cons_ne_nil _ _))
    | cons c cs =>
      rw [Bool.and_eq_true, matchRest_iff]
      constructor
      · rintro ⟨h1, xs, ys, heq, hxs, hys, hall⟩
        refine ⟨c :: xs, ys, by rw [heq]; rfl, by simp, ?_, hys, hall⟩
        rw [List.all_cons, Bool.and_eq_true]
        exact ⟨h1, hxs⟩
      · rintro ⟨xs, ys, heq, hne, hxs, hys, hall⟩
        cases xs with
        | nil => exact absurd rfl hne
        | cons x xt =>
          simp only [List.cons_append, List.cons.injEq] at heq
          rw [List.all_cons, Bool.and_eq_true] at hxs
          rw [← heq.1] at hxs
          exact ⟨hxs.1, xt, ys, heq.2, hxs.2, hys, hall⟩
  · intro h
    simp [pull, h]
  · intro h
    simp [pull, h]

/-- Witness for the C2 theorem: the valid ID "bartowski/Qwen2.5-Math.Q4"
proceeds past validation, and the invalid "a.b/c" is rejected before any
effect. -/
theorem pull_validation_gate_witness :
    validateModelID "a.b/c" = false ∧
    pull ([PullStep.checkExisting], Except.ok ()) "a.b/c" =
      ([], Except.error ("invalid model ID format: " ++ "a.b/c")) ∧
    validateModelID "ab/c.Q4" = true ∧
    pull ([PullStep.checkExisting], Except.ok ()) "ab/c.Q4" =
      ([PullStep.checkExisting], Except.ok ()) :=
  ⟨by decide,
   (pull_validation_gate "a.b/c" ([PullStep.checkExisting], Except.ok ())).2.2 (by decide),
   by decide,
   (pull_validation_gate "ab/c.Q4" ([PullStep.checkExisting], Except.ok ())).2.1 (by decide)⟩

/-- Claim C3, counterexample: on the identifier "a_b/c" the code returns
"a-b-c" — the underscore is REPLACED by a hyphen — while the claim's
strip-the-character reading would return "ab-c"; the two disagree. -/
theorem generateSlug_strip_counterexample :
    generateSlug "a_b/c" = "a-b-c" ∧ generateSlugClaim "a_b/c" = "ab-c" ∧
      generateSlug "a_b/c" ≠ generateSlugClaim "a_b/c" := by
  decide

/-- Claim C3, amended: generateSlug lower-cases the identifier, replaces each
slash with a hyphen, REPLACES (not deletes) every character outside
`[a-z0-9-]` with a hyphen, and trims leading and trailing hyphens —
equivalently, one character-wise pass followed by the hyphen trim. -/
theorem generateSlug_characterisation (s : String) :
    generateSlug s = String.mk (trimChar '-' (s.data.map (fun c =>
      let c1 := c.toLower
      let c2 := if c1 = '/' then '-' else c1
      if isSlugChar c2 then c2 else '-'))) := by
  show String.mk (trimChar '-'
      (((s.data.map Char.toLower).map (fun c => if c = '/' then '-' else c)).map
        (fun c => if isSlugChar c then c else '-'))) = _
  rw [List.map_map, List.map_map]
  rfl

theorem upper_false_of_slugChar (c : Char) (h : isSlugChar c = true) : c.isUpper = false := by
  cases hu : c.isUpper
  · rfl
  · exfalso
    have hu2 : 65 ≤ c.val ∧ c.val ≤ 90 := by simpa [Char.isUpper] using hu
    simp only [isSlugChar, Char.isLower, Char.isDigit, Bool.or_eq_true, Bool.and_eq_true,
      decide_eq_true_eq] at h
    rcases h with (⟨h1, h2⟩ | ⟨h1, h2⟩) | rfl
    · exact absurd (UInt32.le_trans h1 hu2.2) (by decide)
    · exact absurd (UInt32.le_trans hu2.1 h2) (by decide)
    · exact absurd hu2.1 (by decide)

/-- Claim C4: for every valid identifier matching `<namespace>/<name>`,
generateSlug is deterministic (equal inputs yield equal outputs), its
output contains only characters of `[a-z0-9-]` — in particular no
upper-case letter, so it is lower-case — and it neither starts nor ends
with a hyphen. -/
theorem generateSlug_wellformed (s t : String)
    (hv : validateModelID s = true) (ht : t = s) :
    generateSlug t = generateSlug s ∧
    (generateSlug s).data.all isSlugChar = true ∧
    (generateSlug s).data.all (fun c => !c.isUpper) = true ∧
    (generateSlug s).data.head? ≠ some '-' ∧
    (generateSlug s).data.getLast? ≠ some '-' := by
  have hl : (generateSlug s).data = trimChar '-'
      (((s.data.map Char.toLower).map (fun c => if c = '/' then '-' else c)).map
        (fun c => if isSlugChar c then c else '-')) := rfl
  have hs3 : (((s.data.map Char.toLower).map (fun c => if c = '/' then '-' else c)).map
      (fun c => if isSlugChar c then c else '-')).all isSlugChar = true := by
    rw [List.all_eq_true]
    intro c hc
    rw [List.mem_map] at hc
    obtain ⟨x, -, rfl⟩ := hc
    by_cases hx : isSlugChar x = true
    · simp only [if_pos hx]
      exact hx
    · simp only [if_neg hx]
      decide
  refine ⟨by rw [ht], ?_, ?_, ?_, ?_⟩
  · rw [hl]
    exact all_trimChar _ _ _ hs3
  · rw [hl, List.all_eq_true]
    intro c hc
    have hslug := List.all_eq_true.mp (all_trimChar _ _ _ hs3) c hc
    simp [upper_false_of_slugChar c hslug]
  · rw [hl]
    intro hh
    exact head?_trimChar_ne hh rfl
  · rw [hl]
    intro hh
    exact getLast?_trimChar_ne hh rfl

/-- Witness for the C4 theorem at the valid identifier
"The-Org/Model.v2_Q4". -/
theorem generateSlug_wellformed_witness :
    validateModelID "The-Org/Model.v2_Q4" = true ∧
    ((generateSlug "The-Org/Model.v2_Q4").data.all isSlugChar = true ∧
      (generateSlug "The-Org/Model.v2_Q4").data.head? ≠ some '-' ∧
      (generateSlug "The-Org/Model.v2_Q4").data.getLast? ≠ some '-') :=
  ⟨by decide,
   (generateSlug_wellformed "The-Org/Model.v2_Q4" _ (by decide) rfl).2.1,
   (generateSlug_wellformed "The-Org/Model.v2_Q4" _ (by decide) rfl).2.2.2⟩

/-- Claim C10: alias(old, new) where a record with slug new already exists —
and old names a record, as the claim presupposes when it says the record
under old keeps its slug — fails with the already-exists error and
returns the store unchanged: no record is overwritten. -/
theorem alias_existing_target (ms : List DBModel) (oldSlug newSlug : String)
    (hOld : (getModelBySlug ms oldSlug).isSome = true)
    (hNew : (getModelBySlug ms newSlug).isSome = true) :
    aliasModel ms oldSlug newSlug =
      (ms, some ("model with slug " ++ newSlug ++ " already exists")) := by
  unfold aliasModel
  rw [if_pos hOld, if_pos hNew]

/-- Witness for the C10 theorem on a two-record store. -/
theorem alias_existing_target_witness :
    aliasModel
      [⟨"a", "o/a", "a.gguf", "/m/a.gguf", "1M", 0, none⟩,
       ⟨"b", "o/b", "b.gguf", "/m/b.gguf", "2M", 1, none⟩] "a" "b" =
      ([⟨"a", "o/a", "a.gguf", "/m/a.gguf", "1M", 0, none⟩,
        ⟨"b", "o/b", "b.gguf", "/m/b.gguf", "2M", 1, none⟩],
        some ("model with slug " ++ "b" ++ " already exists")) :=
  alias_existing_target _ "a" "b" (by decide) (by decide)

theorem isOrphanFile_iff (st : SysState) (f : String) :
    isOrphanFile st f ↔ f ∈ st.files ∧ ∀ r ∈ st.models, r.filePath ≠ f :=
  Iff.rfl

theorem removeCmd_none (fsOk : String → Bool) (dbOk : Bool) (st : SysState) (slug : String)
    (hg : getModelBySlug st.models slug = none) :
    removeCmd fsOk dbOk st slug = (st, some ("model with slug " ++ slug ++ " not found")) := by
  unfold removeCmd
  rw [hg]

theorem removeCmd_some (fsOk : String → Bool) (dbOk : Bool) (st : SysState) (slug : String)
    (m : DBModel) (hg : getModelBySlug st.models slug = some m) :
    removeCmd fsOk dbOk st slug =
      if fsOk m.filePath then
        if dbOk then
          (⟨st.files.filter (fun p => p != m.filePath), (removeModel st.models slug).1⟩,
            (removeModel st.models slug).2)
        else
          (⟨st.files.filter (fun p => p != m.filePath), st.models⟩,
            some "deleting model: database error")
      else (st, some ("removing file: " ++ m.filePath)) := by
  unfold removeCmd
  rw [hg]

/-- Claim C1, counterexample: with one record whose backing file is deleted
successfully and whose database delete then fails, Remove leaves a
record whose backing file is gone — an orphaned record — refuting the
claim's "never an orphaned record". -/
theorem remove_orphan_record_counterexample :
    hasOrphanRecord (removeCmd (fun _ => true) false
      ⟨["/m/a.gguf"], [⟨"a", "o/m", "a.gguf", "/m/a.gguf", "1M", 0, none⟩]⟩ "a").1 = true ∧
    ((removeCmd (fun _ => true) false
      ⟨["/m/a.gguf"], [⟨"a", "o/m", "a.gguf", "/m/a.gguf", "1M", 0, none⟩]⟩ "a").2).isSome
        = true ∧
    hasOrphanRecord ⟨["/m/a.gguf"], [⟨"a", "o/m", "a.gguf", "/m/a.gguf", "1M", 0, none⟩]⟩
      = false := by
  decide

/-- Claim C1, amended: Remove deletes the backing file first and the database
record second; consequently a mid-way failure can leave an orphaned
record (a record whose backing file is gone — the counterexample) but
never an orphaned file: on a store with unique slugs, any file orphaned
after Remove was already orphaned before, and on success the record of
the removed slug is gone. -/
theorem remove_no_orphan_file (fsOk : String → Bool) (dbOk : Bool) (st : SysState)
    (slug : String) (hd : distinctSlugs st.models) :
    (∀ f, isOrphanFile (removeCmd fsOk dbOk st slug).1 f → isOrphanFile st f) ∧
    ((removeCmd fsOk dbOk st slug).2 = none →
      ∀ r ∈ (removeCmd fsOk dbOk st slug).1.models, r.slug ≠ slug) := by
  cases hg : getModelBySlug st.models slug with
  | none =>
    rw [removeCmd_none fsOk dbOk st slug hg]
    exact ⟨fun f hf => hf, fun h => by simp at h⟩
  | some m =>
    rw [removeCmd_some fsOk dbOk st slug m hg]
    by_cases hfs : fsOk m.filePath
    · rw [if_pos hfs]
      by_cases hdb : dbOk
      · rw [if_pos hdb]
        have hm : m ∈ st.models := List.mem_of_find?_eq_some hg
        have hms : m.slug = slug := by simpa using List.find?_some hg
        have hany : st.models.any (fun r => r.slug == slug) = true := by
          rw [List.any_eq_true]
          exact ⟨m, hm, by simpa using hms⟩
        rw [show removeModel st.models slug =
            (st.models.filter (fun r => r.slug != slug), none) from by
          unfold removeModel
          rw [if_pos hany]]
        constructor
        · intro f hf
          rw [isOrphanFile_iff] at hf ⊢
          obtain ⟨hf1, hf2⟩ := hf
          have hf1m := List.mem_filter.mp hf1
          refine ⟨hf1m.1, ?_⟩
          intro r hr heq
          by_cases hrs : r.slug = slug
          · have hrm : r = m := distinctSlugs_eq_of_slug_eq hd hr hm (by rw [hrs, hms])
            subst hrm
            have hne := hf1m.2
            rw [bne_iff_ne] at hne
            exact hne heq.symm
          · exact hf2 r (List.mem_filter.mpr ⟨hr, by simpa using hrs⟩) heq
        · intro _ r hr
          have := (List.mem_filter.mp hr).2
          simpa using this
      · rw [if_neg hdb]
        refine ⟨?_, fun h => by simp at h⟩
        intro f hf
        rw [isOrphanFile_iff] at hf ⊢
        exact ⟨(List.mem_filter.mp hf.1).1, hf.2⟩
    · rw [if_neg hfs]
      exact ⟨fun f hf => hf, fun h => by simp at h⟩

/-- Witness for the C1 theorem on a one-record consistent state with all
steps succeeding. -/
theorem remove_no_orphan_file_witness :
    distinctSlugs ([⟨"a", "o/m", "a.gguf", "/m/a.gguf", "1M", 0, none⟩] : List DBModel) ∧
    (∀ f, isOrphanFile (removeCmd (fun _ => true) true
        ⟨["/m/a.gguf"], [⟨"a", "o/m", "a.gguf", "/m/a.gguf", "1M", 0, none⟩]⟩ "a").1 f →
      isOrphanFile ⟨["/m/a.gguf"], [⟨"a", "o/m", "a.gguf", "/m/a.gguf", "1M", 0, none⟩]⟩ f) :=
  ⟨by simp [distinctSlugs],
   (remove_no_orphan_file (fun _ => true) true _ "a" (by simp [distinctSlugs])).1⟩

theorem slug_preserved_touch (slug : String) (now : Nat) (r : DBModel) :
    ((if r.slug == slug then { r with lastUsed := some now } else r) : DBModel).slug
      = r.slug := by
  split <;> rfl

theorem distinctSlugs_addModel (ms : List DBModel)
    (slug modelID fileName filePath fileSize : String) (now : Nat)
    (h : distinctSlugs ms) :
    distinctSlugs (addModel ms slug modelID fileName filePath fileSize now) := by
  unfold addModel distinctSlugs
  rw [List.pairwise_cons]
  refine ⟨?_, List.Pairwise.filter _ h⟩
  intro b hb
  have hbs := (List.mem_filter.mp hb).2
  rw [bne_iff_ne] at hbs
  exact fun he => hbs he.symm

theorem distinctSlugs_removeModel (ms : List DBModel) (slug : String)
    (h : distinctSlugs ms) : distinctSlugs (removeModel ms slug).1 := by
  unfold removeModel
  split
  · exact List.Pairwise.filter _ h
  · exact h

theorem distinctSlugs_touch (ms : List DBModel) (slug : String) (now : Nat)
    (h : distinctSlugs ms) : distinctSlugs (updateModelLastUsed ms slug now).1 := by
  unfold updateModelLastUsed
  by_cases hAny : ms.any (fun r => r.slug == slug) = true
  · rw [if_pos hAny]
    show distinctSlugs (ms.map _)
    unfold distinctSlugs
    rw [List.pairwise_map]
    refine h.imp ?_
    intro a b hab
    rw [slug_preserved_touch, slug_preserved_touch]
    exact hab
  · rw [if_neg hAny]
    exact h

theorem distinctSlugs_alias (ms : List DBModel) (oldSlug newSlug : String)
    (h : distinctSlugs ms) : distinctSlugs (aliasModel ms oldSlug newSlug).1 := by
  unfold aliasModel
  by_cases hOld : (getModelBySlug ms oldSlug).isSome = true
  · rw [if_pos hOld]
    by_cases hNew : (getModelBySlug ms newSlug).isSome = true
    · rw [if_pos hNew]
      exact h
    · rw [if_neg hNew]
      have h2 : getModelBySlug ms newSlug = none := by
        cases hg : getModelBySlug ms newSlug with
        | none => rfl
        | some m2 => rw [hg] at hNew; simp at hNew
      have hnone : ∀ r ∈ ms, r.slug ≠ newSlug := by
        intro r hr heq
        have := List.find?_eq_none.mp h2 r hr
        exact this (by simpa using heq)
      unfold updateModelSlug
      by_cases hAny : ms.any (fun r => r.slug == oldSlug) = true
      · rw [if_pos hAny]
        show distinctSlugs (ms.map _)
        unfold distinctSlugs
        rw [List.pairwise_map]
        refine List.Pairwise.imp_of_mem ?_ h
        intro a b ha hb hab
        by_cases ha2 : a.slug = oldSlug <;> by_cases hb2 : b.slug = oldSlug
        · exact absurd (ha2.trans hb2.symm) hab
        · simp only [if_pos (show (a.slug == oldSlug) = true by simpa using ha2),
            if_neg (show ¬(b.slug == oldSlug) = true by simpa using hb2)]
          intro he
          exact hnone b hb he.symm
        · simp only [if_neg (show ¬(a.slug == oldSlug) = true by simpa using ha2),
            if_pos (show (b.slug == oldSlug) = true by simpa using hb2)]
          intro he
          exact hnone a ha he
        · simp only [if_neg (show ¬(a.slug == oldSlug) = true by simpa using ha2),
            if_neg (show ¬(b.slug == oldSlug) = true by simpa using hb2)]
          exact hab
      · rw [if_neg hAny]
        exact h
  · rw [if_neg hOld]
    exact h

/-- Claim C5: slug uniqueness is an invariant of the store: it holds of the
empty initial store and is preserved by every store operation — upsert
(AddModel), rename (Alias), remove and touch — so no two records share a
slug in any reachable store state. -/
theorem reachable_store_distinctSlugs (ms : List DBModel) (h : ReachableStore ms) :
    distinctSlugs ms := by
  induction h with
  | init => exact List.Pairwise.nil
  | add ms slug modelID fileName filePath fileSize now _ ih =>
    exact distinctSlugs_addModel ms slug modelID fileName filePath fileSize now ih
  | rename ms o n _ ih => exact distinctSlugs_alias ms o n ih
  | remove ms s _ ih => exact distinctSlugs_removeModel ms s ih
  | touch ms s now _ ih => exact distinctSlugs_touch ms s now ih

/-- Witness for the C5 theorem: the store reached by an upsert followed
by a rename has distinct slugs. -/
theorem reachable_store_distinctSlugs_witness :
    distinctSlugs (aliasModel (addModel [] "a" "o/a" "f.gguf" "/m/f.gguf" "1M" 0) "a" "b").1 :=
  reachable_store_distinctSlugs _
    (ReachableStore.rename _ "a" "b"
      (ReachableStore.add [] "a" "o/a" "f.gguf" "/m/f.gguf" "1M" 0 ReachableStore.init))

/-- Claim C6, counterexample: an error visiting the first path aborts the
whole walk — the later well-formed .gguf file, which on its own imports
fine, is never imported — refuting "never aborts the walk over the
remaining files". -/
theorem importExisting_abort_counterexample :
    importExisting "/m" 0
      [⟨"ns/a.gguf", false, 0, true, false⟩, ⟨"ns/b.gguf", false, 1048576, false, false⟩] []
      = ([], true) ∧
    importExisting "/m" 0 [⟨"ns/b.gguf", false, 1048576, false, false⟩] []
      = ([⟨"ns", "ns", "b.gguf", "/m/ns/b.gguf", "1M", 0, none⟩], false) := by
  decide

theorem importExisting_no_abort (root : String) (now : Nat) :
    ∀ (entries : List WalkEntry) (st : List DBModel),
      (∀ e ∈ entries, e.visitErr = false) →
        (importExisting root now entries st).2 = false := by
  intro entries
  induction entries with
  | nil => intro st h; rfl
  | cons e rest ih =>
    intro st h
    have he : e.visitErr = false := h e (List.mem_cons_self e rest)
    have ht : ∀ x ∈ rest, x.visitErr = false := fun x hx => h x (List.mem_cons_of_mem e hx)
    rw [importExisting]
    simp only [he, Bool.false_eq_true, if_false]
    split
    · split
      · exact ih _ ht
      · split
        · exact ih _ ht
        · exact ih _ ht
    · exact ih _ ht

/-- Claim C6, amended: a failed record insert for one file is logged and
skipped — with no visit errors the walk never aborts whatever inserts
fail, and an insert-failing entry leaves the store unchanged while the
walk proceeds over the remaining files; an error visiting a path, by
contrast, aborts the walk (see the counterexample). -/
theorem importExisting_insert_failures_skipped (root : String) (now : Nat)
    (entries : List WalkEntry) (st : List DBModel)
    (h : ∀ e ∈ entries, e.visitErr = false) :
    (importExisting root now entries st).2 = false ∧
    (∀ e rest st2, e.visitErr = false → e.insertFails = true →
      importExisting root now (e :: rest) st2 = importExisting root now rest st2) := by
  refine ⟨importExisting_no_abort root now entries st h, ?_⟩
  intro e rest st2 hv hif
  rw [importExisting]
  simp only [hv, Bool.false_eq_true, if_false, hif]
  split
  · split
    · rfl
    · simp only [if_true]
  · rfl

/-- Witness for the C6 theorem: a walk whose first file fails its insert
still completes and still imports the second file. -/
theorem importExisting_insert_failures_skipped_witness :
    (importExisting "/m" 0
      [⟨"ns/a.gguf", false, 0, false, true⟩, ⟨"ns/b.gguf", false, 1048576, false, false⟩]
      []).2 = false ∧
    importExisting "/m" 0
      [⟨"ns/a.gguf", false, 0, false, true⟩, ⟨"ns/b.gguf", false, 1048576, false, false⟩] []
      = importExisting "/m" 0 [⟨"ns/b.gguf", false, 1048576, false, false⟩] [] :=
  ⟨(importExisting_insert_failures_skipped "/m" 0
      [⟨"ns/a.gguf", false, 0, false, true⟩, ⟨"ns/b.gguf", false, 1048576, false, false⟩]
      [] (by decide)).1,
   (importExisting_insert_failures_skipped "/m" 0 [] [] (by simp)).2
      ⟨"ns/a.gguf", false, 0, false, true⟩ [⟨"ns/b.gguf", false, 1048576, false, false⟩]
      [] rfl rfl⟩

/-- Claim C7: feeding the streamed lines carrying the fragments with content
"Hi" and " there", followed by any non-matching or malformed line,
yields the accumulated visible text "Hi there"; the turn appends the
user input and then exactly one assistant turn holding that accumulated
text; the bad line is silently skipped — only its content is lost and
the stream is not aborted. -/
theorem chat_stream_parse (history : List String) (input bad : String)
    (hbad : strHasPrefix bad "data: " = false ∨ streamContent (strDrop bad 6) = none) :
    chatTurn history input
      ["data: \x7b\"content\":\"Hi\"\x7d", "data: \x7b\"content\":\" there\"\x7d", bad]
      = (history ++ [input, "Hi there"], "Hi there") := by
  have h12 : processStreamLine (processStreamLine "" "data: \x7b\"content\":\"Hi\"\x7d")
      "data: \x7b\"content\":\" there\"\x7d" = "Hi there" := by decide
  have h3 : processStreamLine "Hi there" bad = "Hi there" := by
    unfold processStreamLine
    cases hs : strHasPrefix bad "data: " with
    | false => rfl
    | true =>
      rcases hbad with hb | hb
      · rw [hs] at hb
        cases hb
      · rw [hb]
        rfl
  unfold chatTurn processStream
  rw [List.foldl_cons, List.foldl_cons, List.foldl_cons, List.foldl_nil, h12, h3]
  show (history ++ [input] ++ ["Hi there"], "Hi there") = _
  rw [List.append_assoc]
  rfl

/-- Witness for the C7 theorem: an empty prior transcript, the user turn
"hello", and a trailing line without the data marker. -/
theorem chat_stream_parse_witness :
    chatTurn [] "hello"
      ["data: \x7b\"content\":\"Hi\"\x7d", "data: \x7b\"content\":\" there\"\x7d",
        "error: not a data line"]
      = (["hello", "Hi there"], "Hi there") :=
  chat_stream_parse [] "hello" "error: not a data line" (Or.inl (by decide))

theorem range'_filter_dots (i n : Nat) :
    (List.range' i (n + 1)).filter (fun m => decide (0 < m ∧ m % 10 = 0)) =
      (if 0 < i ∧ i % 10 = 0 then [i] else []) ++
        (List.range' (i + 1) n).filter (fun m => decide (0 < m ∧ m % 10 = 0)) := by
  rw [List.range'_succ, List.filter_cons]
  by_cases hP : 0 < i ∧ i % 10 = 0
  · simp [hP]
  · simp [hP]

theorem waitFrom_success (healthy : Nat → Bool) :
    ∀ (k r i : Nat), (∀ j, j < k → healthy (i + j) = false) → healthy (i + k) = true →
      k < r →
      waitFrom healthy r i =
        (some (i + k),
          (List.range' i (k + 1)).filter (fun m => decide (0 < m ∧ m % 10 = 0))) := by
  intro k
  induction k with
  | zero =>
    intro r i h0 hk hr
    cases r with
    | zero => exact absurd hr (by omega)
    | succ r2 =>
      rw [waitFrom]
      rw [Nat.add_zero] at hk
      rw [hk]
      rw [Nat.add_zero, range'_filter_dots]
      simp
  | succ k ih =>
    intro r i h0 hk hr
    cases r with
    | zero => exact absurd hr (by omega)
    | succ r2 =>
      rw [waitFrom]
      have hi : healthy i = false := by
        have := h0 0 (by omega)
        rwa [Nat.add_zero] at this
      rw [hi]
      simp only [Bool.false_eq_true, if_false]
      have hj : ∀ j, j < k → healthy (i + 1 + j) = false := by
        intro j hjk
        have := h0 (j + 1) (by omega)
        rwa [show i + (j + 1) = i + 1 + j by omega] at this
      have hk2 : healthy (i + 1 + k) = true := by
        rwa [show i + (k + 1) = i + 1 + k by omega] at hk
      rw [ih r2 (i + 1) hj hk2 (by omega), range'_filter_dots i (k + 1)]
      dsimp only
      rw [show i + 1 + k = i + (k + 1) by omega]

theorem waitFrom_none (healthy : Nat → Bool) :
    ∀ (r i : Nat), (∀ j, j < r → healthy (i + j) = false) →
      waitFrom healthy r i =
        (none, (List.range' i r).filter (fun m => decide (0 < m ∧ m % 10 = 0))) := by
  intro r
  induction r with
  | zero => intro i h; rfl
  | succ r2 ih =>
    intro i h
    rw [waitFrom]
    have hi : healthy i = false := by
      have := h 0 (by omega)
      rwa [Nat.add_zero] at this
    rw [hi]
    simp only [Bool.false_eq_true, if_false]
    have hj : ∀ j, j < r2 → healthy (i + 1 + j) = false := by
      intro j hjr
      have := h (j + 1) (by omega)
      rwa [show i + (j + 1) = i + 1 + j by omega] at this
    rw [ih (i + 1) hj, range'_filter_dots]

/-- Claim C8: WaitForServer with a 300-second budget checks the health
endpoint once per one-second tick.  With an endpoint first healthy on
the 5th check (indices 0..3 unhealthy, index 4 healthy) it returns
success exactly at that 5th check — index 4, with no progress dot
printed — and not before or after; with an endpoint never healthy in
all 300 checks it returns a timeout, and the progress dot is printed at
exactly every 10th unanswered attempt: indices 10, 20, …, 290. -/
theorem waitForServer_spec (h1 h2 : Nat → Bool)
    (hy1 : ∀ j, j < 4 → h1 j = false) (hy2 : h1 4 = true)
    (hy3 : ∀ j, j < 300 → h2 j = false) :
    waitForServer h1 300 = (some 4, []) ∧
    waitForServer h2 300 = (none, (List.range 29).map (fun n => 10 * (n + 1))) := by
  constructor
  · have hs := waitFrom_success h1 4 300 0
      (by intro j hj; rw [Nat.zero_add]; exact hy1 j hj)
      (by rw [Nat.zero_add]; exact hy2) (by omega)
    rw [waitForServer, hs]
    decide
  · have hn := waitFrom_none h2 300 0 (by intro j hj; rw [Nat.zero_add]; exact hy3 j hj)
    rw [waitForServer, hn]
    decide

/-- Witness for the C8 theorem: an endpoint healthy from the 5th check
on, and an endpoint that is never healthy. -/
theorem waitForServer_spec_witness :
    (∀ j, j < 4 → (fun n => decide (4 ≤ n)) j = false) ∧
    (fun n => decide (4 ≤ n)) 4 = true ∧
    (waitForServer (fun n => decide (4 ≤ n)) 300 = (some 4, []) ∧
      waitForServer (fun _ => false) 300
        = (none, (List.range 29).map (fun n => 10 * (n + 1)))) :=
  ⟨by decide, by decide,
    waitForServer_spec (fun n => decide (4 ≤ n)) (fun _ => false)
      (by decide) (by decide) (fun j hj => rfl)⟩

theorem killAll_cons_fst (q : Nat) (qs scan2 : List Nat) (termOk killOk : Nat → Bool) :
    (killAll (q :: qs) scan2 termOk killOk).1 =
      (q :: qs).map (fun p => KillEvent.sigterm p (termOk p)) ++
        KillEvent.wait 2 :: KillEvent.rescan ::
          (if scan2.isEmpty then []
           else scan2.map (fun p => KillEvent.sigkill p (killOk p))) := rfl

/-- Claim C9: KillAll sends the graceful SIGTERM to every PID of the initial
scan — per-PID failures are recorded in the trace and never fail the
call — then waits the fixed 2-second grace period, re-scans, and sends
the forceful SIGKILL exactly to the PIDs the re-scan still finds; a PID
found by both scans receives the graceful signal strictly before the
forceful one, and the overall result is nil. -/
theorem killAll_spec (scan1 scan2 : List Nat) (termOk killOk : Nat → Bool) :
    (killAll scan1 scan2 termOk killOk).2 = none ∧
    (∀ p ∈ scan1, KillEvent.sigterm p (termOk p) ∈ (killAll scan1 scan2 termOk killOk).1) ∧
    (∀ p b, KillEvent.sigkill p b ∈ (killAll scan1 scan2 termOk killOk).1 →
      p ∈ scan2 ∧ b = killOk p) ∧
    (∀ p, p ∈ scan1 → p ∈ scan2 →
      Precedes (killAll scan1 scan2 termOk killOk).1
        (KillEvent.sigterm p (termOk p)) (KillEvent.sigkill p (killOk p))) := by
  cases scan1 with
  | nil =>
    refine ⟨rfl, ?_, ?_, ?_⟩
    · intro p hp
      cases hp
    · intro p b hb
      cases hb
    · intro p hp
      cases hp
  | cons q qs =>
    refine ⟨rfl, ?_, ?_, ?_⟩
    · intro p hp
      exact List.mem_append_left _ (List.mem_map_of_mem _ hp)
    · intro p b hb
      rw [killAll_cons_fst, List.mem_append] at hb
      rcases hb with hb | hb
      · rw [List.mem_map] at hb
        obtain ⟨x, -, hx⟩ := hb
        cases hx
      · rw [List.mem_cons] at hb
        rcases hb with hb | hb
        · cases hb
        · rw [List.mem_cons] at hb
          rcases hb with hb | hb
          · cases hb
          · by_cases hsc : scan2.isEmpty = true
            · rw [if_pos hsc] at hb
              cases hb
            · rw [if_neg hsc] at hb
              rw [List.mem_map] at hb
              obtain ⟨x, hx1, hx2⟩ := hb
              cases hx2
              exact ⟨hx1, rfl⟩
    · intro p hp1 hp2
      have hsc : ¬scan2.isEmpty = true := by
        cases scan2 with
        | nil => cases hp2
        | cons a l => simp
      obtain ⟨s1, t1, hsp1⟩ :=
        List.append_of_mem (List.mem_map_of_mem (fun x => KillEvent.sigterm x (termOk x)) hp1)
      obtain ⟨s2, t2, hsp2⟩ :=
        List.append_of_mem (List.mem_map_of_mem (fun x => KillEvent.sigkill x (killOk x)) hp2)
      refine ⟨s1, t1 ++ KillEvent.wait 2 :: KillEvent.rescan :: s2, t2, ?_⟩
      show (q :: qs).map _ ++ KillEvent.wait 2 :: KillEvent.rescan ::
          (if scan2.isEmpty then [] else scan2.map _) = _
      rw [if_neg hsc, hsp1, hsp2]
      simp [List.append_assoc]

/-- Witness for the C9 theorem: PIDs 3 and 7 are signalled, PID 7
survives the grace period and is force-killed after its SIGTERM. -/
theorem killAll_spec_witness :
    (killAll [3, 7] [7] (fun _ => true) (fun _ => false)).2 = none ∧
    Precedes (killAll [3, 7] [7] (fun _ => true) (fun _ => false)).1
      (KillEvent.sigterm 7 true) (KillEvent.sigkill 7 false) :=
  ⟨(killAll_spec [3, 7] [7] (fun _ => true) (fun _ => false)).1,
   (killAll_spec [3, 7] [7] (fun _ => true) (fun _ => false)).2.2.2 7 (by decide) (by decide)⟩

end LlmCli
